import Mathlib

/-!
Shallow embedding of the with-respect-to frame store (WRT.py): a persisted
tree of named 3D coordinate frames with a fluent Get/Set facade, a pose
resolver that climbs parent chains, and a delete-then-insert mutation
engine.  Matrix entries are modelled over an arbitrary commutative ring
(the schema's REAL columns), so every general theorem in particular holds
over the reals; concrete evaluations instantiate the ring at the integers,
which contain every pose of the reference fixture exactly.
-/

set_option maxHeartbeats 1000000

set_option linter.unusedSectionVars false

/-- Errors surfaced by the reference implementation (all raised as
ValueError or spatialmath argument errors in the source): a name fails the
identifier pattern, a referenced frame is absent, the immutable root is a
mutation target, or a stored/constructed matrix fails the SE3 rigidity
check.  outOfFuel is an artifact of the fuel-based loop embedding; the
termination theorem shows it never occurs on acyclic stores. -/
inductive Err where
  | invalidName (s : String)
  | unknownFrame (s : String)
  | immutableRoot
  | invalidPose
  | outOfFuel
deriving DecidableEq

/-- Decidable equality of Except results, used only to evaluate the model
on concrete inputs. -/
instance {ε α : Type} [DecidableEq ε] [DecidableEq α] : DecidableEq (Except ε α) := fun a b =>
  match a, b with
  | .ok x, .ok y =>
    if h : x = y then .isTrue (by rw [h]) else .isFalse (fun hc => by cases hc; exact h rfl)
  | .error x, .error y =>
    if h : x = y then .isTrue (by rw [h]) else .isFalse (fun hc => by cases hc; exact h rfl)
  | .ok _, .error _ => .isFalse (fun hc => by cases hc)
  | .error _, .ok _ => .isFalse (fun hc => by cases hc)

abbrev Mat3 (K : Type) := Matrix (Fin 3) (Fin 3) K

abbrev Vec3 (K : Type) := Fin 3 → K

/-- A rigid transform as stored and manipulated by the source: a 3x3
rotation block and a translation vector (a spatialmath SE3 value). -/
structure Pose (K : Type) where
  R : Mat3 K
  t : Vec3 K

/-- Decidable equality of poses, stated componentwise so that concrete
instances reduce in the kernel. -/
instance {K : Type} [DecidableEq K] : DecidableEq (Pose K) := fun a b =>
  decidable_of_iff (a.R = b.R ∧ a.t = b.t) (by cases a; cases b; simp)

/-- One row of the frames table: unique name, nullable parent name, and the
pose of this frame relative to its parent. -/
structure Row (K : Type) where
  name : String
  parent : Option String
  pose : Pose K

/-- Decidable equality of rows, stated componentwise so that concrete
instances reduce in the kernel. -/
instance {K : Type} [DecidableEq K] : DecidableEq (Row K) := fun a b =>
  decidable_of_iff (a.name = b.name ∧ a.parent = b.parent ∧ a.pose = b.pose)
    (by cases a; cases b; simp)

abbrev Store (K : Type) := List (Row K)

/-- The filesystem view DbConnector.In sees: the .db files of the working
directory, each holding one world's frames table. -/
structure FileSys (K : Type) where
  dbs : List (String × Store K)

/-- Decidable equality of filesystem states, stated componentwise so that
concrete instances reduce in the kernel. -/
instance {K : Type} [DecidableEq K] : DecidableEq (FileSys K) := fun a b =>
  decidable_of_iff (a.dbs = b.dbs) (by cases a; cases b; simp)

/-- DbConnector state: at most one cached open connection. -/
structure DbConnector where
  openedWorld : Option String
deriving DecidableEq

/-- Characters allowed by the identifier pattern [0-9a-z-]. -/
def validChar (c : Char) : Bool :=
  ('0' ≤ c && c ≤ '9') || ('a' ≤ c && c ≤ 'z') || c == '-'

/-- Python re.match on the anchored pattern of __verifyInput: a nonempty
run of allowed characters must span the string; the dollar anchor of
Python regular expressions also matches just before a newline that ends
the string, so a single trailing newline is accepted as well. -/
def validName (s : String) : Bool :=
  let cs := s.toList
  let core := if cs.getLast? == some (Char.ofNat 10) then cs.dropLast else cs
  !core.isEmpty && core.all validChar

section Model

variable {K : Type} [CommRing K] [DecidableEq K]

/-- Composition of rigid transforms (spec 4.1, spatialmath product). -/
def Pose.comp (a b : Pose K) : Pose K := ⟨a.R * b.R, a.R.mulVec b.t + a.t⟩

/-- Full inverse of a rigid transform: rotation transposed, translation
rotated by the transpose and negated (spatialmath SE3.inv). -/
def Pose.inv (a : Pose K) : Pose K := ⟨a.R.transpose, -(a.R.transpose.mulVec a.t)⟩

/-- The identity transform. -/
def poseId : Pose K := ⟨1, 0⟩

/-- The rigidity test the spatialmath SE3 constructor applies to a 4x4
matrix: the rotation block is orthonormal with determinant one. -/
def isRigidRot (M : Mat3 K) : Bool := decide (M.transpose * M = 1 ∧ M.det = 1)

/-- The seed row inserted when a new world is created: name world, NULL
parent, identity rotation, zero translation. -/
def worldRow : Row K := ⟨"world", none, ⟨1, 0⟩⟩

/-- SELECT * FROM frames WHERE name IS ?: the row with this name (the name
column is the primary key, so at most one matches). -/
def lookupFrame (s : Store K) (n : String) : Option (Row K) :=
  s.find? (fun row => row.name == n)

/-- GetExpressedIn.__getParentFrame: fetch a frame's row and rebuild its
SE3 value; raises unknown-frame if the row is absent, and the SE3
constructor's rigidity check if the stored rotation block is not a
rotation. -/
def getParentFrame (s : Store K) (n : String) : Except Err (Row K) :=
  match lookupFrame s n with
  | none => .error (.unknownFrame n)
  | some row => if isRigidRot row.pose.R then .ok row else .error .invalidPose

/-- The while-loop of __poseWrtWorld: climb the parent chain, premultiplying
the accumulated transform by each parent's relative pose.  The fuel
argument only makes the recursion structural: poseWrtWorld supplies
s.length + 1 and the termination theorem shows acyclic stores never
exhaust it. -/
def poseWrtWorldLoop (s : Store K) : Nat → Option String → Pose K → Except Err (Pose K)
  | _, none, acc => .ok acc
  | 0, some _, _ => .error .outOfFuel
  | fuel + 1, some p, acc =>
    match getParentFrame s p with
    | .error er => .error er
    | .ok row => poseWrtWorldLoop s fuel row.parent (row.pose.comp acc)

/-- GetExpressedIn.__poseWrtWorld: the pose of a frame with respect to
world, expressed in world. -/
def poseWrtWorld (s : Store K) (n : String) : Except Err (Pose K) :=
  match getParentFrame s n with
  | .error er => .error er
  | .ok row => poseWrtWorldLoop s (s.length + 1) row.parent row.pose

/-- GetExpressedIn.Ei steps 2 to 6: look up the three world poses; X_RW_W
negates only the reference's translation (no rotational inversion is
applied at this step); compose X_RF_W = X_RW_W * X_WF_W; then apply only
the rotation of the full inverse X_IW_I to both components.  The final SE3
constructor re-checks rigidity of the assembled rotation block. -/
def resolve (s : Store K) (f r i : String) : Except Err (Pose K) :=
  match poseWrtWorld s f with
  | .error er => .error er
  | .ok XWF =>
    match poseWrtWorld s r with
    | .error er => .error er
    | .ok XWR =>
      let XRW : Pose K := ⟨1, -XWR.t⟩
      let XRFW := XRW.comp XWF
      match poseWrtWorld s i with
      | .error er => .error er
      | .ok XWI =>
        let XIWI := XWI.inv
        if isRigidRot (XIWI.R * XRFW.R) then
          .ok ⟨XIWI.R * XRFW.R, XIWI.R.mulVec XRFW.t⟩
        else .error .invalidPose

/-- DELETE FROM frames WHERE name IS ?. -/
def deleteFrame (s : Store K) (f : String) : Store K :=
  s.filter (fun row => !(row.name == f))

/-- SetAs.As run against a store: returns the outcome together with the
final committed store.  Transaction modelling: the outer context manager
of As commits on success and rolls back on an exception, but each
__getParentFrame call of the nested resolver enters its own context
manager on the same connection, whose successful exit commits the pending
DELETE.  Hence a failure of the very first post-delete read (of the
expressed-in frame) rolls the deletion back, while any later failure
leaves the deletion committed. -/
def setAs (s : Store K) (f r e : String) (P : Pose K) : Except Err Unit × Store K :=
  if !isRigidRot P.R then (.error .invalidPose, s)
  else
    match lookupFrame s r with
    | none => (.error (.unknownFrame r), s)
    | some _ =>
      let s2 := deleteFrame s f
      match getParentFrame s2 e with
      | .error er => (.error er, s)
      | .ok _ =>
        match resolve s2 e r r with
        | .error er => (.error er, s2)
        | .ok XRIR =>
          (.ok (), s2 ++ [⟨f, some r, ⟨XRIR.R * P.R, XRIR.R.mulVec P.t⟩⟩])

/-- Getter: the state after Get(frame); its constructor validates nothing. -/
structure Getter where
  frame : String

/-- GetExpressedIn also serves as the state after Get(frame).Wrt(ref); its
constructor validates both names. -/
structure GetEi where
  frame : String
  ref : String

/-- Setter: the state after Set(frame); the only check on the Set stage is
the immutable-root guard. -/
structure Setter where
  frame : String

/-- SetExpressedIn: the state after Set(frame).Wrt(ref); its constructor
validates nothing. -/
structure SetWrt where
  frame : String
  ref : String

/-- SetAs stage: all three names were validated by its constructor. -/
structure SetReady where
  frame : String
  ref : String
  ei : String

/-- GetSet.Get: builds a Getter without validating the name. -/
def facadeGet (f : String) : Except Err Getter := .ok ⟨f⟩

/-- Getter.Wrt: constructs GetExpressedIn, whose constructor validates the
frame name and then the reference name. -/
def Getter.Wrt (g : Getter) (r : String) : Except Err GetEi :=
  if !validName g.frame then .error (.invalidName g.frame)
  else if !validName r then .error (.invalidName r)
  else .ok ⟨g.frame, r⟩

/-- GetExpressedIn.Ei: validates the expressed-in name, then resolves. -/
def GetEi.run (g : GetEi) (s : Store K) (i : String) : Except Err (Pose K) :=
  if !validName i then .error (.invalidName i)
  else resolve s g.frame g.ref i

/-- GetSet.Set: rejects the immutable root before any further stage. -/
def facadeSet (f : String) : Except Err Setter :=
  if f == "world" then .error .immutableRoot else .ok ⟨f⟩

/-- Setter.Wrt: constructs SetExpressedIn; no validation happens here. -/
def Setter.Wrt (st : Setter) (r : String) : Except Err SetWrt := .ok ⟨st.frame, r⟩

/-- SetExpressedIn.Ei: the SetAs constructor validates frame, reference and
expressed-in names, in that order. -/
def SetWrt.Ei (st : SetWrt) (e : String) : Except Err SetReady :=
  if !validName st.frame then .error (.invalidName st.frame)
  else if !validName st.ref then .error (.invalidName st.ref)
  else if !validName e then .error (.invalidName e)
  else .ok ⟨st.frame, st.ref, e⟩

/-- The whole query chain Get(f).Wrt(r).Ei(i). -/
def fullGet (s : Store K) (f r i : String) : Except Err (Pose K) :=
  match facadeGet f with
  | .error er => .error er
  | .ok g =>
    match g.Wrt r with
    | .error er => .error er
    | .ok ge => ge.run s i

/-- The whole command chain Set(f).Wrt(r).Ei(e).As(P); an error at any
stage aborts the chain, leaving the store as the stage left it. -/
def fullSet (s : Store K) (f r e : String) (P : Pose K) : Except Err Unit × Store K :=
  match facadeSet f with
  | .error er => (.error er, s)
  | .ok st =>
    match st.Wrt r with
    | .error er => (.error er, s)
    | .ok st2 =>
      match st2.Ei e with
      | .error er => (.error er, s)
      | .ok st3 => setAs s st3.frame st3.ref st3.ei P

/-- DbConnector.In: reuse the cached connection when the same world is
requested again; otherwise validate the world name and create and seed the
database only when no .db file with that stem exists yet. -/
def DbConnector.In (c : DbConnector) (fs : FileSys K) (w : String) :
    Except Err (DbConnector × FileSys K) :=
  if c.openedWorld == some w then .ok (c, fs)
  else if !validName w then .error (.invalidName w)
  else
    match fs.dbs.find? (fun p => p.1 == w) with
    | some _ => .ok (⟨some w⟩, fs)
    | none => .ok (⟨some w⟩, ⟨fs.dbs ++ [(w, [worldRow])]⟩)

end Model

/-- Rotation of 90 degrees about the x axis, as in the reference fixture. -/
def rotX90 : Mat3 ℤ := !![1, 0, 0; 0, 0, -1; 0, 1, 0]

/-- Rotation of 90 degrees about the z axis, as in the reference fixture. -/
def rotZ90 : Mat3 ℤ := !![0, -1, 0; 1, 0, 0; 0, 0, 1]

/-- Fixture pose of frame a: identity rotation, translation (1,1,1). -/
def poseA : Pose ℤ := ⟨1, ![1, 1, 1]⟩

/-- Fixture pose of frame b: 90 degrees about x, zero translation. -/
def poseB : Pose ℤ := ⟨rotX90, 0⟩

/-- Fixture pose of frame c: identity rotation, translation (1,0,0). -/
def poseC : Pose ℤ := ⟨1, ![1, 0, 0]⟩

/-- Fixture pose of frame d: 90 degrees about z, translation (1,1,0). -/
def poseD : Pose ℤ := ⟨rotZ90, ![1, 1, 0]⟩

/-- A fresh world: only the seeded root row. -/
def store0 : Store ℤ := [worldRow]

/-- The fixture store after Set(a).Wrt(world).Ei(world). -/
def store1 : Store ℤ := (fullSet store0 "a" "world" "world" poseA).2

/-- The fixture store after Set(b).Wrt(a).Ei(a). -/
def store2 : Store ℤ := (fullSet store1 "b" "a" "a" poseB).2

/-- The fixture store after Set(c).Wrt(b).Ei(b). -/
def store3 : Store ℤ := (fullSet store2 "c" "b" "b" poseC).2

/-- The fixture store after Set(d).Wrt(b).Ei(b). -/
def store4 : Store ℤ := (fullSet store3 "d" "b" "b" poseD).2

section Lemmas

variable {K : Type} [CommRing K] [DecidableEq K]

theorem Pose.comp_assoc (a b c : Pose K) : (a.comp b).comp c = a.comp (b.comp c) := by
  simp only [Pose.comp, Pose.mk.injEq]
  refine ⟨mul_assoc a.R b.R c.R, ?_⟩
  rw [← Matrix.mulVec_mulVec, Matrix.mulVec_add, add_assoc]

theorem isRigidRot_iff (M : Mat3 K) :
    isRigidRot M = true ↔ (M.transpose * M = 1 ∧ M.det = 1) := by
  simp [isRigidRot]

theorem isRigidRot_one : isRigidRot (1 : Mat3 K) = true := by
  rw [isRigidRot_iff]
  exact ⟨by rw [Matrix.transpose_one, one_mul], Matrix.det_one⟩

theorem isRigidRot_mul (A B : Mat3 K) (hA : isRigidRot A = true)
    (hB : isRigidRot B = true) : isRigidRot (A * B) = true := by
  rw [isRigidRot_iff] at hA hB ⊢
  constructor
  · rw [Matrix.transpose_mul, mul_assoc, ← mul_assoc A.transpose, hA.1, one_mul, hB.1]
  · rw [Matrix.det_mul, hA.2, hB.2, one_mul]

theorem isRigidRot_transpose (A : Mat3 K) (hA : isRigidRot A = true) :
    isRigidRot A.transpose = true := by
  rw [isRigidRot_iff] at hA ⊢
  exact ⟨by rw [Matrix.transpose_transpose]; exact Matrix.mul_eq_one_comm.mp hA.1,
    by rw [Matrix.det_transpose]; exact hA.2⟩

theorem lookupFrame_mem {s : Store K} {n : String} {row : Row K}
    (h : lookupFrame s n = some row) : row ∈ s ∧ row.name = n := by
  refine ⟨List.mem_of_find?_eq_some h, ?_⟩
  have := List.find?_some h
  exact eq_of_beq this

theorem lookupFrame_append {s s3 : Store K} {n : String} {row : Row K}
    (h : lookupFrame s n = some row) : lookupFrame (s ++ s3) n = some row := by
  unfold lookupFrame at h ⊢
  rw [List.find?_append, h]
  rfl

theorem getParentFrame_ok {s : Store K} {n : String} {row : Row K}
    (h : getParentFrame s n = .ok row) :
    lookupFrame s n = some row ∧ isRigidRot row.pose.R = true := by
  cases hl : lookupFrame s n with
  | none => simp [getParentFrame, hl] at h
  | some r2 =>
    simp only [getParentFrame, hl] at h
    by_cases hr : isRigidRot r2.pose.R = true
    · rw [if_pos hr] at h
      injection h with h2
      subst h2
      exact ⟨rfl, hr⟩
    · rw [if_neg hr] at h
      exact absurd h (by simp)

theorem getParentFrame_of_lookup {s : Store K} {n : String} {row : Row K}
    (hl : lookupFrame s n = some row) (hr : isRigidRot row.pose.R = true) :
    getParentFrame s n = .ok row := by
  simp [getParentFrame, hl, hr]

theorem getParentFrame_append {s s3 : Store K} {n : String} {row : Row K}
    (h : getParentFrame s n = .ok row) : getParentFrame (s ++ s3) n = .ok row := by
  obtain ⟨hl, hr⟩ := getParentFrame_ok h
  exact getParentFrame_of_lookup (lookupFrame_append hl) hr

theorem lookupFrame_delete_self (s : Store K) (f : String) :
    lookupFrame (deleteFrame s f) f = none := by
  apply List.find?_eq_none.mpr
  intro row hrow
  have := (List.mem_filter.mp hrow).2
  simp only [Bool.not_eq_eq_eq_not, Bool.not_true] at this
  simp [this]

theorem deleteFrame_mem {s : Store K} {f : String} {row : Row K}
    (h : row ∈ deleteFrame s f) : row ∈ s :=
  (List.mem_filter.mp h).1

theorem pwwLoop_fuel_mono {s : Store K} {k k2 : Nat} (hk : k ≤ k2) :
    ∀ {op : Option String} {acc X : Pose K},
      poseWrtWorldLoop s k op acc = .ok X → poseWrtWorldLoop s k2 op acc = .ok X := by
  induction k generalizing k2 with
  | zero =>
    intro op acc X h
    cases op with
    | none => cases h; cases k2 <;> rfl
    | some p => exact absurd h (by simp [poseWrtWorldLoop])
  | succ k ih =>
    intro op acc X h
    cases op with
    | none => cases h; cases k2 <;> rfl
    | some p =>
      obtain ⟨k3, rfl⟩ : ∃ k3, k2 = k3 + 1 := by
        cases k2 with
        | zero => omega
        | succ k3 => exact ⟨k3, rfl⟩
      simp only [poseWrtWorldLoop] at h ⊢
      cases hg : getParentFrame s p with
      | error er => rw [hg] at h; exact absurd h (by simp)
      | ok row =>
        rw [hg] at h
        exact ih (by omega) h

theorem pwwLoop_append {s s3 : Store K} :
    ∀ {k : Nat} {op : Option String} {acc X : Pose K},
      poseWrtWorldLoop s k op acc = .ok X → poseWrtWorldLoop (s ++ s3) k op acc = .ok X := by
  intro k
  induction k with
  | zero =>
    intro op acc X h
    cases op with
    | none => exact h
    | some p => exact absurd h (by simp [poseWrtWorldLoop])
  | succ k ih =>
    intro op acc X h
    cases op with
    | none => exact h
    | some p =>
      simp only [poseWrtWorldLoop] at h ⊢
      cases hg : getParentFrame s p with
      | error er => rw [hg] at h; exact absurd h (by simp)
      | ok row =>
        rw [hg] at h
        rw [getParentFrame_append hg]
        exact ih h

theorem pwwLoop_acc {s : Store K} :
    ∀ {k : Nat} {op : Option String} (A B : Pose K),
      poseWrtWorldLoop s k op (A.comp B) =
        (poseWrtWorldLoop s k op A).map (fun X => X.comp B) := by
  intro k
  induction k with
  | zero =>
    intro op A B
    cases op with
    | none => rfl
    | some p => rfl
  | succ k ih =>
    intro op A B
    cases op with
    | none => rfl
    | some p =>
      simp only [poseWrtWorldLoop]
      cases hg : getParentFrame s p with
      | error er => rfl
      | ok row =>
        dsimp only
        rw [← Pose.comp_assoc]
        exact ih (row.pose.comp A) B

theorem pwwLoop_rigid {s : Store K} :
    ∀ {k : Nat} {op : Option String} {acc X : Pose K},
      isRigidRot acc.R = true → poseWrtWorldLoop s k op acc = .ok X →
        isRigidRot X.R = true := by
  intro k
  induction k with
  | zero =>
    intro op acc X ha h
    cases op with
    | none => cases h; exact ha
    | some p => exact absurd h (by simp [poseWrtWorldLoop])
  | succ k ih =>
    intro op acc X ha h
    cases op with
    | none => cases h; exact ha
    | some p =>
      simp only [poseWrtWorldLoop] at h
      cases hg : getParentFrame s p with
      | error er => rw [hg] at h; exact absurd h (by simp)
      | ok row =>
        rw [hg] at h
        exact ih (isRigidRot_mul row.pose.R acc.R (getParentFrame_ok hg).2 ha) h

theorem poseWrtWorld_rigid {s : Store K} {n : String} {X : Pose K}
    (h : poseWrtWorld s n = .ok X) : isRigidRot X.R = true := by
  unfold poseWrtWorld at h
  cases hg : getParentFrame s n with
  | error er => rw [hg] at h; exact absurd h (by simp)
  | ok row =>
    rw [hg] at h
    exact pwwLoop_rigid (getParentFrame_ok hg).2 h

theorem poseWrtWorld_append {s s3 : Store K} {n : String} {X : Pose K}
    (h : poseWrtWorld s n = .ok X) : poseWrtWorld (s ++ s3) n = .ok X := by
  unfold poseWrtWorld at h ⊢
  cases hg : getParentFrame s n with
  | error er => rw [hg] at h; exact absurd h (by simp)
  | ok row =>
    rw [hg] at h
    rw [getParentFrame_append hg]
    have hlen : s.length + 1 ≤ (s ++ s3).length + 1 := by
      rw [List.length_append]
      omega
    exact pwwLoop_fuel_mono hlen (pwwLoop_append h)

theorem pwwLoop_none {s : Store K} {k : Nat} {acc : Pose K} :
    poseWrtWorldLoop s k none acc = .ok acc := by
  cases k <;> rfl

theorem getParentFrame_ne_fuel (s : Store K) (n : String) :
    getParentFrame s n ≠ .error .outOfFuel := by
  unfold getParentFrame
  cases lookupFrame s n with
  | none => simp
  | some row => by_cases hr : isRigidRot row.pose.R = true <;> simp [hr]

end Lemmas

/-- One parent-pointer step of the stored tree: frame a has a readable row
whose parent column names b. -/
def stepsTo {K : Type} [CommRing K] [DecidableEq K] (s : Store K) (a b : String) : Prop :=
  ∃ row, getParentFrame s a = .ok row ∧ row.parent = some b

/-- The stored parent relation has no cycle (spec data-model invariant). -/
def Acyclic {K : Type} [CommRing K] [DecidableEq K] (s : Store K) : Prop :=
  ∀ n, ¬ Relation.TransGen (stepsTo s) n n

/-- A row's parent pointer, when present, names a stored row. -/
def parentPresent {K : Type} [DecidableEq K] (s : Store K) (row : Row K) : Bool :=
  match row.parent with
  | none => true
  | some p => (lookupFrame s p).isSome

/-- Referential integrity: every stored parent pointer names a stored row. -/
def Integrity {K : Type} [DecidableEq K] (s : Store K) : Prop :=
  ∀ row ∈ s, parentPresent s row = true

/-- Every stored rotation block is a rotation (the SE3 type invariant of
the data model; every row the source writes is produced from SE3 values). -/
def StoreRigid {K : Type} [CommRing K] [DecidableEq K] (s : Store K) : Prop :=
  ∀ row ∈ s, isRigidRot row.pose.R = true

/-- A chain of parent-pointer steps starting at a; the list records the
successive frames visited after a. -/
inductive StepChain {K : Type} [CommRing K] [DecidableEq K] (s : Store K) :
    String → List String → Prop where
  | nil (a : String) : StepChain s a []
  | cons (a b : String) (l : List String) : stepsTo s a b → StepChain s b l →
      StepChain s a (b :: l)

/-- The specification of the parent-chain walk in the spec's words: the
pose of a frame with respect to world is its relative pose, premultiplied
at each step by the parent's pose, up to the root (whose parent is null). -/
inductive PwwSpec {K : Type} [CommRing K] [DecidableEq K] (s : Store K) :
    String → Pose K → Prop where
  | root (n : String) (row : Row K) : getParentFrame s n = .ok row →
      row.parent = none → PwwSpec s n row.pose
  | up (n p : String) (row : Row K) (X : Pose K) : getParentFrame s n = .ok row →
      row.parent = some p → PwwSpec s p X → PwwSpec s n (X.comp row.pose)

section Termination

variable {K : Type} [CommRing K] [DecidableEq K]

theorem pwwLoop_fuel_trace {s : Store K} :
    ∀ {k : Nat} {p : String} {acc : Pose K},
      poseWrtWorldLoop s k (some p) acc = .error .outOfFuel →
        ∃ l, StepChain s p l ∧ l.length = k := by
  intro k
  induction k with
  | zero => intro p acc h; exact ⟨[], .nil p, rfl⟩
  | succ k ih =>
    intro p acc h
    simp only [poseWrtWorldLoop] at h
    cases hg : getParentFrame s p with
    | error er =>
      rw [hg] at h
      injection h with h2
      exact absurd (hg.trans (by rw [h2])) (getParentFrame_ne_fuel s p)
    | ok row =>
      rw [hg] at h
      dsimp only at h
      cases hp : row.parent with
      | none => rw [hp] at h; rw [pwwLoop_none] at h; exact absurd h (by simp)
      | some q =>
        rw [hp] at h
        obtain ⟨l, hc, hlen⟩ := ih h
        exact ⟨q :: l, .cons p q l ⟨row, hg, hp⟩ hc, by simp [hlen]⟩

theorem stepChain_dropLast {s : Store K} {a : String} {l : List String}
    (h : StepChain s a l) : ∀ x ∈ (a :: l).dropLast, ∃ y, stepsTo s x y := by
  induction h with
  | nil a => intro x hx; simp at hx
  | cons a b l hab hbl ih =>
    intro x hx
    have hre : (a :: b :: l).dropLast = a :: (b :: l).dropLast := rfl
    rw [hre] at hx
    rcases List.mem_cons.mp hx with rfl | hx2
    · exact ⟨b, hab⟩
    · exact ih x hx2

theorem stepChain_transGen {s : Store K} {a x : String} {l : List String}
    (h : StepChain s a l) (hx : x ∈ l) : Relation.TransGen (stepsTo s) a x := by
  induction h with
  | nil a => simp at hx
  | cons a b l hab hbl ih =>
    rcases List.mem_cons.mp hx with rfl | hx2
    · exact Relation.TransGen.single hab
    · exact Relation.TransGen.head hab (ih hx2)

theorem stepChain_dup_cycle {s : Store K} {x : String} :
    ∀ {a : String} {l : List String}, StepChain s a l →
      List.Sublist [x, x] (a :: l) → Relation.TransGen (stepsTo s) x x := by
  intro a l h
  induction h with
  | nil a =>
    intro hsub
    have := hsub.length_le
    simp at this
  | cons a b l hab hbl ih =>
    intro hsub
    rcases List.sublist_cons_iff.mp hsub with h2 | ⟨r, hr, hrl⟩
    · exact ih h2
    · cases hr
      have hx : x ∈ b :: l := List.singleton_sublist.mp hrl
      exact stepChain_transGen (.cons x b l hab hbl) hx

theorem no_fuel_error {s : Store K} (hacy : Acyclic s) (p : String) (acc : Pose K) :
    poseWrtWorldLoop s (s.length + 1) (some p) acc ≠ .error .outOfFuel := by
  intro h
  obtain ⟨l, hc, hlen⟩ := pwwLoop_fuel_trace h
  have hout : ∀ x ∈ (p :: l).dropLast, ∃ y, stepsTo s x y := stepChain_dropLast hc
  have hsubset : (p :: l).dropLast ⊆ s.map Row.name := by
    intro x hx
    obtain ⟨y, row, hrow, hparent⟩ := hout x hx
    have hl2 := (getParentFrame_ok hrow).1
    have hmem := lookupFrame_mem hl2
    exact List.mem_map.mpr ⟨row, hmem.1, hmem.2⟩
  have hlen2 : ((p :: l).dropLast).length = s.length + 1 := by
    rw [List.length_dropLast]
    simp [hlen]
  have hnotnodup : ¬ ((p :: l).dropLast).Nodup := by
    intro hnd
    have := (List.subperm_of_subset hnd hsubset).length_le
    rw [hlen2, List.length_map] at this
    omega
  obtain ⟨x, hdup⟩ := List.exists_duplicate_iff_not_nodup.mpr hnotnodup
  have hsub : List.Sublist [x, x] (p :: l) :=
    (List.duplicate_iff_sublist.mp hdup).trans (List.dropLast_sublist _)
  exact hacy x (stepChain_dup_cycle hc hsub)

theorem pwwLoop_total {s : Store K} (hint : Integrity s) (hrig : StoreRigid s) :
    ∀ {k : Nat} {op : Option String} {acc : Pose K},
      (∀ p, op = some p → ∃ row, getParentFrame s p = .ok row) →
      poseWrtWorldLoop s k op acc ≠ .error .outOfFuel →
      ∃ X, poseWrtWorldLoop s k op acc = .ok X := by
  intro k
  induction k with
  | zero =>
    intro op acc hop hnf
    cases op with
    | none => exact ⟨acc, rfl⟩
    | some p => exact absurd rfl hnf
  | succ k ih =>
    intro op acc hop hnf
    cases op with
    | none => exact ⟨acc, rfl⟩
    | some p =>
      obtain ⟨row, hrow⟩ := hop p rfl
      simp only [poseWrtWorldLoop] at hnf ⊢
      rw [hrow] at hnf ⊢
      dsimp only at hnf ⊢
      apply ih ?_ hnf
      intro q hq
      have hmem := (lookupFrame_mem (getParentFrame_ok hrow).1).1
      have hpok := hint row hmem
      unfold parentPresent at hpok
      rw [hq] at hpok
      dsimp only at hpok
      cases hl : lookupFrame s q with
      | none => rw [hl] at hpok; simp at hpok
      | some row2 =>
        have hm2 := lookupFrame_mem hl
        exact ⟨row2, getParentFrame_of_lookup hl (hrig row2 hm2.1)⟩

theorem pwwLoop_spec {s : Store K} :
    ∀ {k : Nat} {p : String} {acc X : Pose K},
      poseWrtWorldLoop s k (some p) acc = .ok X →
        ∃ Xp, PwwSpec s p Xp ∧ X = Xp.comp acc := by
  intro k
  induction k with
  | zero => intro p acc X h; exact absurd h (by simp [poseWrtWorldLoop])
  | succ k ih =>
    intro p acc X h
    simp only [poseWrtWorldLoop] at h
    cases hg : getParentFrame s p with
    | error er => rw [hg] at h; exact absurd h (by simp)
    | ok row =>
      rw [hg] at h
      dsimp only at h
      cases hp : row.parent with
      | none =>
        rw [hp, pwwLoop_none] at h
        injection h with h2
        exact ⟨row.pose, .root p row hg hp, h2.symm⟩
      | some q =>
        rw [hp] at h
        obtain ⟨Xq, hq, hX⟩ := ih h
        refine ⟨Xq.comp row.pose, .up p q row Xq hg hp hq, ?_⟩
        rw [hX, Pose.comp_assoc]

end Termination

section MoreLemmas

variable {K : Type} [CommRing K] [DecidableEq K]

theorem poseWrtWorld_of_missing {s : Store K} {n : String}
    (h : lookupFrame s n = none) :
    poseWrtWorld s n = .error (.unknownFrame n) := by
  unfold poseWrtWorld getParentFrame
  rw [h]

theorem poseWrtWorld_ok_read {s : Store K} {n : String} {X : Pose K}
    (h : poseWrtWorld s n = .ok X) : ∃ row, getParentFrame s n = .ok row := by
  unfold poseWrtWorld at h
  cases hg : getParentFrame s n with
  | error er => rw [hg] at h; exact absurd h (by simp)
  | ok row => exact ⟨row, rfl⟩

theorem poseWrtWorld_snoc (s2 : Store K) (newRow : Row K) (r : String) (Xr : Pose K)
    (hname : lookupFrame s2 newRow.name = none)
    (hrig : isRigidRot newRow.pose.R = true)
    (hparent : newRow.parent = some r)
    (hpr : poseWrtWorld s2 r = .ok Xr) :
    poseWrtWorld (s2 ++ [newRow]) newRow.name = .ok (Xr.comp newRow.pose) := by
  have hlf : lookupFrame (s2 ++ [newRow]) newRow.name = some newRow := by
    unfold lookupFrame at hname ⊢
    rw [List.find?_append, hname]
    simp
  have hgf : getParentFrame (s2 ++ [newRow]) newRow.name = .ok newRow :=
    getParentFrame_of_lookup hlf hrig
  unfold poseWrtWorld
  rw [hgf]
  dsimp only
  rw [hparent]
  unfold poseWrtWorld at hpr
  cases hgr : getParentFrame s2 r with
  | error er => rw [hgr] at hpr; exact absurd hpr (by simp)
  | ok rowr =>
    rw [hgr] at hpr
    dsimp only at hpr
    have hgr2 : getParentFrame (s2 ++ [newRow]) r = .ok rowr := getParentFrame_append hgr
    have hlen : (s2 ++ [newRow]).length + 1 = (s2.length + 1) + 1 := by simp
    rw [hlen]
    simp only [poseWrtWorldLoop]
    rw [hgr2]
    dsimp only
    rw [pwwLoop_acc rowr.pose newRow.pose, pwwLoop_append hpr]
    rfl

end MoreLemmas

/-- C1: for stored frames F, R and I whose parent chains resolve,
Get(F).Wrt(R).Ei(I) computes exactly the source's formula: X_RW_W has
identity rotation and translation -X_WR_W.t (only the reference's
translation is negated, its rotation is not inverted); X_RF_W =
X_RW_W * X_WF_W; and the result applies only the rotation of the full
inverse X_IW_I to both the rotation and the translation of X_RF_W — the
translation of X_IW_I is never applied. -/
theorem c1_resolve_formula {K : Type} [CommRing K] [DecidableEq K]
    (s : Store K) (F R I : String) (XWF XWR XWI : Pose K)
    (hF : poseWrtWorld s F = .ok XWF)
    (hR : poseWrtWorld s R = .ok XWR)
    (hI : poseWrtWorld s I = .ok XWI) :
    resolve s F R I =
      .ok ⟨(Pose.inv XWI).R * ((Pose.mk 1 (-XWR.t)).comp XWF).R,
        (Pose.inv XWI).R.mulVec ((Pose.mk 1 (-XWR.t)).comp XWF).t⟩ := by
  have hrigF := poseWrtWorld_rigid hF
  have hrigI := poseWrtWorld_rigid hI
  have hguard : isRigidRot ((Pose.inv XWI).R * ((Pose.mk 1 (-XWR.t)).comp XWF).R) = true := by
    apply isRigidRot_mul
    · exact isRigidRot_transpose _ hrigI
    · show isRigidRot ((1 : Mat3 K) * XWF.R) = true
      rw [one_mul]
      exact hrigF
  simp only [resolve, hF, hR, hI]
  rw [if_pos hguard]

/-- C1 witness: the formula theorem applied to the world frame of a fresh
store, with every hypothesis discharged by evaluation. -/
theorem c1_witness :
    resolve store0 "world" "world" "world" =
      .ok ⟨(Pose.inv poseId).R * ((Pose.mk 1 (-(poseId : Pose ℤ).t)).comp poseId).R,
        (Pose.inv poseId).R.mulVec ((Pose.mk 1 (-(poseId : Pose ℤ).t)).comp poseId).t⟩ :=
  c1_resolve_formula store0 "world" "world" "world" poseId poseId poseId
    (by decide) (by decide) (by decide)

/-- C3: for a valid identifier naming a stored frame whose parent chain
resolves, Get(f).Wrt(f).Ei(f) returns the identity transform. -/
theorem c3_get_self_identity {K : Type} [CommRing K] [DecidableEq K]
    (s : Store K) (f : String) (X : Pose K)
    (hv : validName f = true)
    (hX : poseWrtWorld s f = .ok X) :
    fullGet s f f f = .ok poseId := by
  have hrig := poseWrtWorld_rigid hX
  rw [isRigidRot_iff] at hrig
  simp only [fullGet, facadeGet, Getter.Wrt, GetEi.run, hv, Bool.not_true, Bool.false_eq_true,
    if_false]
  simp only [resolve, hX]
  have hone : (Pose.inv X).R * ((Pose.mk 1 (-X.t)).comp X).R = 1 := by
    show X.R.transpose * ((1 : Mat3 K) * X.R) = 1
    rw [one_mul]
    exact hrig.1
  rw [if_pos (by rw [hone]; exact isRigidRot_one)]
  have ht : (Pose.inv X).R.mulVec ((Pose.mk 1 (-X.t)).comp X).t = 0 := by
    show X.R.transpose.mulVec ((1 : Mat3 K).mulVec X.t + -X.t) = 0
    rw [Matrix.one_mulVec, add_neg_cancel, Matrix.mulVec_zero]
  rw [hone, ht]
  rfl

/-- C3 witness: the identity property at the world frame of a fresh store;
each hypothesis is discharged by evaluation. -/
theorem c3_witness : fullGet store0 "world" "world" "world" = .ok (poseId : Pose ℤ) :=
  c3_get_self_identity store0 "world" poseId (by decide) (by decide)

/-- C5: Set("world") fails with the immutable-root error before any later
chain stage runs and before any store access; the store is returned
unchanged, whatever the other arguments are. -/
theorem c5_set_world_immutable {K : Type} [CommRing K] [DecidableEq K]
    (s : Store K) (r e : String) (P : Pose K) :
    fullSet s "world" r e P = (.error .immutableRoot, s) := rfl

/-- C8: on a store whose parent relation is acyclic, with referential
integrity and rigid stored rotations, the parent-chain walk terminates for
every stored frame name and returns the composition of relative poses from
the frame up to the root, premultiplying by the parent's pose at each step
(PwwSpec); for a missing name it raises the unknown-frame error. -/
theorem c8_poseWrtWorld_terminates {K : Type} [CommRing K] [DecidableEq K]
    (s : Store K) (hacy : Acyclic s) (hint : Integrity s) (hrig : StoreRigid s)
    (n : String) :
    (∀ row, getParentFrame s n = .ok row →
      ∃ X, poseWrtWorld s n = .ok X ∧ PwwSpec s n X) ∧
    (lookupFrame s n = none → poseWrtWorld s n = .error (.unknownFrame n)) := by
  constructor
  · intro row hrow
    unfold poseWrtWorld
    rw [hrow]
    dsimp only
    cases hp : row.parent with
    | none =>
      rw [pwwLoop_none]
      exact ⟨row.pose, rfl, .root n row hrow hp⟩
    | some q =>
      have hq2 : ∃ row2, getParentFrame s q = .ok row2 := by
        have hmem := (lookupFrame_mem (getParentFrame_ok hrow).1).1
        have hpok := hint row hmem
        unfold parentPresent at hpok
        rw [hp] at hpok
        dsimp only at hpok
        cases hl : lookupFrame s q with
        | none => rw [hl] at hpok; simp at hpok
        | some row2 =>
          exact ⟨row2, getParentFrame_of_lookup hl (hrig row2 (lookupFrame_mem hl).1)⟩
      have hop : ∀ p, (some q : Option String) = some p →
          ∃ row2, getParentFrame s p = .ok row2 := by
        intro p hpq
        injection hpq with h2
        rw [← h2]
        exact hq2
      obtain ⟨X, hX⟩ := pwwLoop_total hint hrig hop (no_fuel_error hacy q row.pose)
      obtain ⟨Xq, hsp, hXe⟩ := pwwLoop_spec hX
      refine ⟨X, hX, ?_⟩
      rw [hXe]
      exact .up n q row Xq hrow hp hsp
  · intro hnone
    exact poseWrtWorld_of_missing hnone

/-- C8 witness: the termination theorem applied to the fresh single-row
store, with acyclicity, integrity and rigidity discharged concretely. -/
theorem c8_witness :
    (∃ X, poseWrtWorld store0 "world" = .ok X ∧ PwwSpec store0 "world" X) ∧
    poseWrtWorld store0 "ghost" = .error (.unknownFrame "ghost") := by
  have hnostep : ∀ a b : String, ¬ stepsTo store0 a b := by
    intro a b h
    obtain ⟨row, hrow, hparent⟩ := h
    have hl := (getParentFrame_ok hrow).1
    have hmem := lookupFrame_mem hl
    have hrw : row = worldRow := List.mem_singleton.mp hmem.1
    rw [hrw] at hparent
    exact absurd hparent (by simp [worldRow])
  have hacy : Acyclic store0 := by
    intro n h
    obtain ⟨b, h1, h2⟩ := Relation.TransGen.head'_iff.mp h
    exact hnostep _ _ h1
  have hint : Integrity store0 := by
    unfold Integrity
    decide
  have hrig : StoreRigid store0 := by
    unfold StoreRigid
    decide
  constructor
  · exact (c8_poseWrtWorld_terminates store0 hacy hint hrig "world").1 worldRow (by decide)
  · exact (c8_poseWrtWorld_terminates store0 hacy hint hrig "ghost").2 (by decide)

/-- A demonstration row for a frame f parented at the root. -/
def rowF : Row ℤ := ⟨"f", some "world", poseId⟩

/-- A demonstration store holding the root and one frame f. -/
def demoStore : Store ℤ := [worldRow, rowF]

/-- C4 counterexample: with frame f present and the expressed-in frame
absent, Set(f).Wrt(world).Ei(ghost).As(identity) fails after the deletion —
but the context-manager rollback of the failing first post-delete read
restores f's row, so the final store still contains it, contradicting the
claim that the old row is gone whenever a post-delete step fails. -/
theorem c4_counterexample :
    setAs demoStore "f" "world" "ghost" (poseId : Pose ℤ) =
      (.error (.unknownFrame "ghost"), demoStore) ∧
    lookupFrame demoStore "f" = some rowF := by
  exact ⟨by decide, by decide⟩

/-- C4 amended: the mutation is not atomic, but the deletion survives only
failures that occur after the first post-delete read has been committed:
if the expressed-in frame cannot be read right after the deletion, the
implicit rollback restores the old row and the store is unchanged; if the
first read succeeds and a later resolver step fails, the old row stays
deleted and no new row is inserted. -/
theorem c4_mutation_commit_behavior {K : Type} [CommRing K] [DecidableEq K]
    (s : Store K) (f r e : String) (P : Pose K) (rowr : Row K)
    (hP : isRigidRot P.R = true)
    (hr : lookupFrame s r = some rowr) :
    (lookupFrame (deleteFrame s f) e = none →
      setAs s f r e P = (.error (.unknownFrame e), s)) ∧
    (∀ rowe er, getParentFrame (deleteFrame s f) e = .ok rowe →
      resolve (deleteFrame s f) e r r = .error er →
      setAs s f r e P = (.error er, deleteFrame s f)) := by
  constructor
  · intro he
    have hge : getParentFrame (deleteFrame s f) e = .error (.unknownFrame e) := by
      unfold getParentFrame
      rw [he]
    simp only [setAs, hP, Bool.not_true, Bool.false_eq_true, if_false, hr, hge]
  · intro rowe er hge hres
    simp only [setAs, hP, Bool.not_true, Bool.false_eq_true, if_false, hr, hge, hres]

/-- C4 witness: both branches of the amended theorem at concrete inputs —
the rollback case (absent expressed-in frame, store unchanged) and the
committed case (later failure, old row gone, nothing inserted). -/
theorem c4_witness :
    setAs demoStore "f" "world" "ghost" (poseId : Pose ℤ) =
      (.error (.unknownFrame "ghost"), demoStore) ∧
    setAs demoStore "f" "f" "world" (poseId : Pose ℤ) =
      (.error (.unknownFrame "f"), deleteFrame demoStore "f") :=
  ⟨(c4_mutation_commit_behavior demoStore "f" "world" "ghost" poseId worldRow
      (by decide) (by decide)).1 (by decide),
   (c4_mutation_commit_behavior demoStore "f" "f" "world" poseId rowF
      (by decide) (by decide)).2 worldRow (.unknownFrame "f") (by decide) (by decide)⟩

/-- C6 counterexample: the Get stage performs no validation (an invalid
name is accepted there and only rejected at the Wrt stage), and a name
with a trailing newline — which contains a character outside the allowed
class — passes the Python anchored pattern and reaches the store lookup,
failing with unknown-frame instead of invalid-name. -/
theorem c6_counterexample :
    facadeGet "A" = .ok ⟨"A"⟩ ∧ validName "A" = false ∧
    validName "a\n" = true ∧
    fullGet store0 "a\n" "world" "world" = .error (.unknownFrame "a\n") :=
  ⟨rfl, by decide, by decide, by decide⟩

/-- C6 amended: every chain still fails with the invalid-name error before
any store access when some supplied name is invalid, but validation is not
attached to the stage that received the name: the Get chain checks its
frame and reference names at the Wrt stage and the expressed-in name at
the Ei stage, and the Set chain checks all three names at the Ei stage;
moreover the accepted set of names is the Python anchored pattern, which
also accepts a single trailing newline. -/
theorem c6_validation_before_store_access {K : Type} [CommRing K] [DecidableEq K]
    (s : Store K) (f r e : String) (P : Pose K)
    (hbad : validName f = false ∨ validName r = false ∨ validName e = false) :
    (∃ n, validName n = false ∧ fullGet s f r e = .error (.invalidName n)) ∧
    (f ≠ "world" →
      ∃ n, validName n = false ∧ fullSet s f r e P = (.error (.invalidName n), s)) := by
  by_cases hf : validName f = true
  · by_cases hr : validName r = true
    · have he : validName e = false := by
        rcases hbad with h | h | h
        · rw [hf] at h; exact absurd h (by simp)
        · rw [hr] at h; exact absurd h (by simp)
        · exact h
      constructor
      · exact ⟨e, he, by simp [fullGet, facadeGet, Getter.Wrt, GetEi.run, hf, hr, he]⟩
      · intro hw
        have hw2 : (f == "world") = false := beq_eq_false_iff_ne.mpr hw
        exact ⟨e, he, by simp [fullSet, facadeSet, Setter.Wrt, SetWrt.Ei, hw2, hf, hr, he]⟩
    · have hr2 : validName r = false := Bool.eq_false_iff.mpr hr
      constructor
      · exact ⟨r, hr2, by simp [fullGet, facadeGet, Getter.Wrt, GetEi.run, hf, hr2]⟩
      · intro hw
        have hw2 : (f == "world") = false := beq_eq_false_iff_ne.mpr hw
        exact ⟨r, hr2, by simp [fullSet, facadeSet, Setter.Wrt, SetWrt.Ei, hw2, hf, hr2]⟩
  · have hf2 : validName f = false := Bool.eq_false_iff.mpr hf
    constructor
    · exact ⟨f, hf2, by simp [fullGet, facadeGet, Getter.Wrt, GetEi.run, hf2]⟩
    · intro hw
      have hw2 : (f == "world") = false := beq_eq_false_iff_ne.mpr hw
      exact ⟨f, hf2, by simp [fullSet, facadeSet, Setter.Wrt, SetWrt.Ei, hw2, hf2]⟩

/-- C6 witness: the amended theorem at a concrete invalid name, both for
the query chain and for the command chain. -/
theorem c6_witness :
    (∃ n, validName n = false ∧
      fullGet store0 "BAD" "world" "world" = .error (.invalidName n)) ∧
    (∃ n, validName n = false ∧
      fullSet store0 "BAD" "world" "world" (poseId : Pose ℤ) =
        (.error (.invalidName n), store0)) := by
  have h := c6_validation_before_store_access store0 "BAD" "world" "world" poseId
    (Or.inl (by decide))
  exact ⟨h.1, h.2 (by decide)⟩

/-- C7 counterexample: a .db file for world w exists but holds no seeded
frames table (for example a file created by an interrupted earlier run);
opening w neither creates nor seeds anything — the guard is file existence,
not table existence — so after the open the root frame row does not exist,
contradicting the claim. -/
theorem c7_counterexample :
    DbConnector.In ⟨none⟩ (FileSys.mk [("w", ([] : Store ℤ))]) "w" =
      .ok (⟨some "w"⟩, FileSys.mk [("w", [])]) ∧
    lookupFrame ([] : Store ℤ) "world" = none :=
  ⟨by decide, rfl⟩

/-- C7 amended: schema creation and root seeding happen exactly once per
world, at the first open, guarded by the existence of the world's .db file
in the working directory (not by table existence): a cached connection is
reused untouched, a fresh world is created with exactly the seed row
(world, NULL, identity, zero), and an existing file is never re-seeded. -/
theorem c7_world_creation_seeding {K : Type} [CommRing K] [DecidableEq K]
    (c : DbConnector) (fs : FileSys K) (w : String) :
    (c.openedWorld = some w → DbConnector.In c fs w = .ok (c, fs)) ∧
    (c.openedWorld ≠ some w → validName w = true →
      fs.dbs.find? (fun p => p.1 == w) = none →
      DbConnector.In c fs w = .ok (⟨some w⟩, ⟨fs.dbs ++ [(w, [worldRow])]⟩)) ∧
    (c.openedWorld ≠ some w → validName w = true → ∀ entry,
      fs.dbs.find? (fun p => p.1 == w) = some entry →
      DbConnector.In c fs w = .ok (⟨some w⟩, fs)) := by
  refine ⟨?_, ?_, ?_⟩
  · intro hc
    have hcb : (c.openedWorld == some w) = true := beq_iff_eq.mpr hc
    simp [DbConnector.In, hcb]
  · intro hc hv hfind
    have hcb : (c.openedWorld == some w) = false := beq_eq_false_iff_ne.mpr hc
    simp [DbConnector.In, hcb, hv, hfind]
  · intro hc hv entry hfind
    have hcb : (c.openedWorld == some w) = false := beq_eq_false_iff_ne.mpr hc
    simp [DbConnector.In, hcb, hv, hfind]

/-- C7 witness: the amended theorem at concrete inputs — creating and
seeding a fresh world, and leaving an already-existing file untouched. -/
theorem c7_witness :
    DbConnector.In ⟨none⟩ (FileSys.mk ([] : List (String × Store ℤ))) "demo" =
      .ok (⟨some "demo"⟩, ⟨[("demo", [worldRow])]⟩) ∧
    DbConnector.In ⟨none⟩ (FileSys.mk [("demo", ([worldRow] : Store ℤ))]) "demo" =
      .ok (⟨some "demo"⟩, ⟨[("demo", [worldRow])]⟩) :=
  ⟨(c7_world_creation_seeding ⟨none⟩ ⟨[]⟩ "demo").2.1 (by decide) (by decide) (by decide),
   (c7_world_creation_seeding ⟨none⟩ ⟨[("demo", [worldRow])]⟩ "demo").2.2 (by decide)
     (by decide) ("demo", [worldRow]) (by decide)⟩

/-- C10: a Set command whose frame is its own reference or its own
expressed-in frame never inserts a row: the reference-existence check
passes against the pre-delete store where applicable, the frame's row is
removed within the transaction, and the reframing lookup then fails with
the unknown-frame error for that frame, aborting before any insert. -/
theorem c10_self_reference_no_insert {K : Type} [CommRing K] [DecidableEq K]
    (s : Store K) (f e r : String) (P : Pose K) (rowf : Row K)
    (hP : isRigidRot P.R = true)
    (hf : lookupFrame s f = some rowf) :
    ((∃ X, poseWrtWorld (deleteFrame s f) e = .ok X) →
      setAs s f f e P = (.error (.unknownFrame f), deleteFrame s f)) ∧
    (∀ rowr, lookupFrame s r = some rowr →
      setAs s f r f P = (.error (.unknownFrame f), s)) := by
  constructor
  · intro hX
    obtain ⟨X, hX⟩ := hX
    obtain ⟨rowe, hge⟩ := poseWrtWorld_ok_read hX
    have hres : resolve (deleteFrame s f) e f f = .error (.unknownFrame f) := by
      have hpf : poseWrtWorld (deleteFrame s f) f = .error (.unknownFrame f) :=
        poseWrtWorld_of_missing (lookupFrame_delete_self s f)
      simp only [resolve, hX, hpf]
    simp only [setAs, hP, Bool.not_true, Bool.false_eq_true, if_false, hf, hge, hres]
  · intro rowr hr
    have hgf : getParentFrame (deleteFrame s f) f = .error (.unknownFrame f) := by
      unfold getParentFrame
      rw [lookupFrame_delete_self]
    simp only [setAs, hP, Bool.not_true, Bool.false_eq_true, if_false, hr, hgf]

/-- C10 witness: both self-reference shapes at a concrete store — the
frame as its own reference, and the frame as its own expressed-in frame —
each failing with the unknown-frame error for that frame, inserting
nothing. -/
theorem c10_witness :
    setAs demoStore "f" "f" "world" (poseId : Pose ℤ) =
      (.error (.unknownFrame "f"), deleteFrame demoStore "f") ∧
    setAs demoStore "f" "world" "f" (poseId : Pose ℤ) =
      (.error (.unknownFrame "f"), demoStore) :=
  ⟨(c10_self_reference_no_insert demoStore "f" "world" "world" poseId rowF
      (by decide) (by decide)).1 ⟨poseId, by decide⟩,
   (c10_self_reference_no_insert demoStore "f" "world" "world" poseId rowF
      (by decide) (by decide)).2 worldRow (by decide)⟩

section Roundtrip

variable {K : Type} [CommRing K] [DecidableEq K]

theorem Pose.ext2 {a b : Pose K} (h1 : a.R = b.R) (h2 : a.t = b.t) : a = b := by
  cases a
  cases b
  simp only [Pose.mk.injEq]
  exact ⟨h1, h2⟩

theorem fullGet_valid (s : Store K) (f r e : String)
    (hvf : validName f = true) (hvr : validName r = true) (hve : validName e = true) :
    fullGet s f r e = resolve s f r e := by
  unfold fullGet facadeGet Getter.Wrt GetEi.run
  simp only [hvf, hvr, hve, Bool.not_true, Bool.false_eq_true, if_false]

theorem fullSet_ok_inv {s s2 : Store K} {f r e : String} {P : Pose K}
    (h : fullSet s f r e P = (.ok (), s2)) :
    validName f = true ∧ validName r = true ∧ validName e = true ∧
      setAs s f r e P = (.ok (), s2) := by
  unfold fullSet facadeSet Setter.Wrt SetWrt.Ei at h
  by_cases hw : (f == "world") = true
  · rw [if_pos hw] at h
    simp at h
  · rw [if_neg hw] at h
    dsimp only at h
    by_cases hvf : validName f = true
    · rw [hvf] at h
      simp only [Bool.not_true, Bool.false_eq_true, if_false] at h
      by_cases hvr : validName r = true
      · rw [hvr] at h
        simp only [Bool.not_true, Bool.false_eq_true, if_false] at h
        by_cases hve : validName e = true
        · rw [hve] at h
          simp only [Bool.not_true, Bool.false_eq_true, if_false] at h
          exact ⟨hvf, hvr, hve, h⟩
        · rw [Bool.eq_false_iff.mpr hve] at h
          simp at h
      · rw [Bool.eq_false_iff.mpr hvr] at h
        simp at h
    · rw [Bool.eq_false_iff.mpr hvf] at h
      simp at h

theorem setAs_ok_inv {s s2 : Store K} {f r e : String} {P : Pose K}
    (h : setAs s f r e P = (.ok (), s2)) :
    ∃ rowr rowe XRIR, isRigidRot P.R = true ∧ lookupFrame s r = some rowr ∧
      getParentFrame (deleteFrame s f) e = .ok rowe ∧
      resolve (deleteFrame s f) e r r = .ok XRIR ∧
      s2 = deleteFrame s f ++ [⟨f, some r, ⟨XRIR.R * P.R, XRIR.R.mulVec P.t⟩⟩] := by
  unfold setAs at h
  by_cases hP : isRigidRot P.R = true
  · rw [hP] at h
    simp only [Bool.not_true, Bool.false_eq_true, if_false] at h
    cases hlr : lookupFrame s r with
    | none => rw [hlr] at h; simp at h
    | some rowr =>
      rw [hlr] at h
      dsimp only at h
      cases hge : getParentFrame (deleteFrame s f) e with
      | error er => rw [hge] at h; simp at h
      | ok rowe =>
        rw [hge] at h
        dsimp only at h
        cases hres : resolve (deleteFrame s f) e r r with
        | error er => rw [hres] at h; simp at h
        | ok XRIR =>
          rw [hres] at h
          dsimp only at h
          refine ⟨rowr, rowe, XRIR, hP, rfl, rfl, rfl, ?_⟩
          exact (congrArg Prod.snd h).symm
  · rw [Bool.eq_false_iff.mpr hP] at h
    simp at h

theorem resolve_ok_inv {s : Store K} {f r i : String} {X : Pose K}
    (h : resolve s f r i = .ok X) :
    ∃ XWF XWR XWI, poseWrtWorld s f = .ok XWF ∧ poseWrtWorld s r = .ok XWR ∧
      poseWrtWorld s i = .ok XWI ∧
      X = ⟨(Pose.inv XWI).R * ((Pose.mk 1 (-XWR.t)).comp XWF).R,
        (Pose.inv XWI).R.mulVec ((Pose.mk 1 (-XWR.t)).comp XWF).t⟩ := by
  unfold resolve at h
  cases hf : poseWrtWorld s f with
  | error er => rw [hf] at h; simp at h
  | ok XWF =>
    rw [hf] at h
    dsimp only at h
    cases hr : poseWrtWorld s r with
    | error er => rw [hr] at h; simp at h
    | ok XWR =>
      rw [hr] at h
      dsimp only at h
      cases hi : poseWrtWorld s i with
      | error er => rw [hi] at h; simp at h
      | ok XWI =>
        rw [hi] at h
        dsimp only at h
        by_cases hg : isRigidRot ((Pose.inv XWI).R * ((Pose.mk 1 (-XWR.t)).comp XWF).R) = true
        · rw [if_pos hg] at h
          injection h with h2
          exact ⟨XWF, XWR, XWI, rfl, rfl, rfl, h2.symm⟩
        · rw [if_neg hg] at h
          simp at h

end Roundtrip

/-- C2: a successful Set(f).Wrt(r).Ei(e).As(P) followed by
Get(f).Wrt(r).Ei(e) on the resulting store returns exactly P, with exact
component equality. -/
theorem c2_set_get_roundtrip {K : Type} [CommRing K] [DecidableEq K]
    (s s2 : Store K) (f r e : String) (P : Pose K)
    (hset : fullSet s f r e P = (.ok (), s2)) :
    fullGet s2 f r e = .ok P := by
  obtain ⟨hvf, hvr, hve, hsetAs⟩ := fullSet_ok_inv hset
  obtain ⟨rowr, rowe, XRIR, hP, hlr, hge, hres, hs2⟩ := setAs_ok_inv hsetAs
  obtain ⟨Xe, Xr, Xr2, hpe, hpr, hpr2, hXRIR⟩ := resolve_ok_inv hres
  rw [hpr] at hpr2
  injection hpr2 with hXrXr2
  subst hXrXr2
  have hXRIRR : XRIR.R = (Pose.inv Xr).R * ((Pose.mk 1 (-Xr.t)).comp Xe).R := by
    rw [hXRIR]
  have hXeB := poseWrtWorld_rigid hpe
  have hXrB := poseWrtWorld_rigid hpr
  have hXe := (isRigidRot_iff Xe.R).mp hXeB
  have hXr := (isRigidRot_iff Xr.R).mp hXrB
  have hXrc : Xr.R * Xr.R.transpose = 1 := Matrix.mul_eq_one_comm.mp hXr.1
  have hGr : isRigidRot ((Pose.inv Xr).R * ((Pose.mk 1 (-Xr.t)).comp Xe).R) = true := by
    apply isRigidRot_mul
    · exact isRigidRot_transpose Xr.R hXrB
    · show isRigidRot ((1 : Mat3 K) * Xe.R) = true
      rw [one_mul]
      exact hXeB
  have hQrig : isRigidRot (XRIR.R * P.R) = true := by
    apply isRigidRot_mul
    · rw [hXRIRR]
      exact hGr
    · exact hP
  have hpr3 : poseWrtWorld s2 r = .ok Xr := by
    rw [hs2]
    exact poseWrtWorld_append hpr
  have hpe3 : poseWrtWorld s2 e = .ok Xe := by
    rw [hs2]
    exact poseWrtWorld_append hpe
  have hpf3 : poseWrtWorld s2 f =
      .ok (Xr.comp ⟨XRIR.R * P.R, XRIR.R.mulVec P.t⟩) := by
    rw [hs2]
    exact poseWrtWorld_snoc (deleteFrame s f)
      ⟨f, some r, ⟨XRIR.R * P.R, XRIR.R.mulVec P.t⟩⟩ r Xr
      (lookupFrame_delete_self s f) hQrig rfl hpr
  rw [fullGet_valid s2 f r e hvf hvr hve]
  unfold resolve
  rw [hpf3]
  dsimp only
  rw [hpr3]
  dsimp only
  rw [hpe3]
  dsimp only
  have hC : (Pose.inv Xe).R * ((Pose.mk 1 (-Xr.t)).comp (Xr.comp
      (⟨XRIR.R * P.R, XRIR.R.mulVec P.t⟩ : Pose K))).R = P.R := by
    show Xe.R.transpose * ((1 : Mat3 K) * (Xr.R * (XRIR.R * P.R))) = P.R
    rw [hXRIRR]
    show Xe.R.transpose *
      ((1 : Mat3 K) * (Xr.R * ((Xr.R.transpose * ((1 : Mat3 K) * Xe.R)) * P.R))) = P.R
    rw [one_mul, one_mul]
    rw [mul_assoc Xr.R.transpose Xe.R P.R]
    rw [← mul_assoc Xr.R Xr.R.transpose (Xe.R * P.R)]
    rw [hXrc, one_mul]
    rw [← mul_assoc Xe.R.transpose Xe.R P.R, hXe.1, one_mul]
  have hD : (Pose.inv Xe).R.mulVec ((Pose.mk 1 (-Xr.t)).comp (Xr.comp
      (⟨XRIR.R * P.R, XRIR.R.mulVec P.t⟩ : Pose K))).t = P.t := by
    show Xe.R.transpose.mulVec
      ((1 : Mat3 K).mulVec (Xr.R.mulVec (XRIR.R.mulVec P.t) + Xr.t) + -Xr.t) = P.t
    rw [Matrix.one_mulVec, add_neg_cancel_right]
    rw [hXRIRR]
    show Xe.R.transpose.mulVec
      (Xr.R.mulVec ((Xr.R.transpose * ((1 : Mat3 K) * Xe.R)).mulVec P.t)) = P.t
    rw [one_mul]
    rw [Matrix.mulVec_mulVec]
    rw [Matrix.mulVec_mulVec]
    rw [mul_assoc Xe.R.transpose Xr.R (Xr.R.transpose * Xe.R)]
    rw [← mul_assoc Xr.R Xr.R.transpose Xe.R, hXrc, one_mul, hXe.1]
    rw [Matrix.one_mulVec]
  rw [if_pos (by rw [hC]; exact hP)]
  exact congrArg Except.ok (Pose.ext2 hC hD)

/-- C2 witness: the round trip at a concrete store — setting frame a at
the world frame and reading it back returns exactly the pose that was
set. -/
theorem c2_witness : fullGet store1 "a" "world" "world" = .ok poseA :=
  c2_set_get_roundtrip store0 store1 "a" "world" "world" poseA (by decide)

/-- C9: in the reference fixture (a at world with translation (1,1,1); b at
a rotated 90 degrees about x; c at b translated (1,0,0); d at b rotated 90
degrees about z and translated (1,1,0)), the four documented queries return
exactly the documented transforms; the four mutations themselves succeed. -/
theorem c9_reference_fixture :
    (fullSet store0 "a" "world" "world" poseA).1 = .ok () ∧
    (fullSet store1 "b" "a" "a" poseB).1 = .ok () ∧
    (fullSet store2 "c" "b" "b" poseC).1 = .ok () ∧
    (fullSet store3 "d" "b" "b" poseD).1 = .ok () ∧
    fullGet store4 "c" "world" "world" = .ok ⟨rotX90, ![2, 1, 1]⟩ ∧
    fullGet store4 "a" "b" "b" = .ok ⟨!![1, 0, 0; 0, 0, 1; 0, -1, 0], 0⟩ ∧
    fullGet store4 "a" "b" "a" = .ok poseId ∧
    fullGet store4 "d" "a" "a" = .ok ⟨!![0, -1, 0; 0, 0, -1; 1, 0, 0], ![1, 0, 1]⟩ := by
  decide
